import Mathlib

/-!
Shallow embedding of the workspace coordination engine of
`multi_agent_mcp/workspace/manager.py` (class `WorkspaceManager`).

Paths are workspace-relative strings.  Time (`datetime.now()`) is threaded
as an explicit `now : Nat` parameter.  The cross-process filesystem mutex
(`filelock.FileLock`) is modelled by a boolean oracle `lockOk` passed to the
operations that call `lock.acquire()`; note that in the source the shared
(read) branch of `acquire_file` never calls `lock.acquire()`, so the oracle
is only consulted on the exclusive (write) branch.  File-system I/O inside
`read_file` / `write_file` is modelled by oracles for its success or failure.
-/

namespace MultiAgent

/-- `AgentType` enum of `manager.py`. -/
inductive AgentType where
  | claude
  | gemini
  | human
deriving DecidableEq

/-- `AgentType.value` strings. -/
def agentValue : AgentType → String
  | .claude => "claude"
  | .gemini => "gemini"
  | .human => "human"

/-- `AgentType(v)` construction from the value string (`None` models the
`ValueError` raised on an unknown string). -/
def agentOfValue : String → Option AgentType
  | "claude" => some AgentType.claude
  | "gemini" => some AgentType.gemini
  | "human" => some AgentType.human
  | _ => none

/-- `FileState` enum of `manager.py`. -/
inductive FileState where
  | available
  | locked_read
  | locked_write
  | modified
  | conflict
deriving DecidableEq

/-- `FileState.value` strings. -/
def fileStateValue : FileState → String
  | .available => "available"
  | .locked_read => "locked_read"
  | .locked_write => "locked_write"
  | .modified => "modified"
  | .conflict => "conflict"

/-- `FileState(v)` construction from the value string. -/
def fileStateOfValue : String → Option FileState
  | "available" => some FileState.available
  | "locked_read" => some FileState.locked_read
  | "locked_write" => some FileState.locked_write
  | "modified" => some FileState.modified
  | "conflict" => some FileState.conflict
  | _ => none

/-- One record of `_log_file_event`: `{timestamp, agent, action, file, details}`. -/
structure AuditEvent where
  timestamp : Nat
  agent : AgentType
  action : String
  file : String
  details : List (String × String)
deriving DecidableEq

/-- The `FileMetadata` dataclass. -/
structure FileMetadata where
  path : String
  state : FileState
  locked_by : Option AgentType
  last_modified : Nat
  checksum : Option String
  history : List AuditEvent
deriving DecidableEq

/-- `FileMetadata(path=...)` with the dataclass defaults. -/
def FileMetadata.fresh (path : String) (now : Nat) : FileMetadata :=
  { path := path
    state := FileState.available
    locked_by := none
    last_modified := now
    checksum := none
    history := [] }

/-- One entry of `self.agent_activity`: `{'last_active': ..., 'current_files': ...}`. -/
structure AgentActivity where
  last_active : Option Nat
  current_files : List String
deriving DecidableEq

/-- The `self.agent_activity` dict, keyed by the three fixed `AgentType`s. -/
structure ActivityTable where
  claude : AgentActivity
  gemini : AgentActivity
  human : AgentActivity
deriving DecidableEq

def ActivityTable.get (t : ActivityTable) : AgentType → AgentActivity
  | .claude => t.claude
  | .gemini => t.gemini
  | .human => t.human

def ActivityTable.set (t : ActivityTable) : AgentType → AgentActivity → ActivityTable
  | .claude, a => { t with claude := a }
  | .gemini, a => { t with gemini := a }
  | .human, a => { t with human := a }

/-- All three entries start as `{'last_active': None, 'current_files': set()}`. -/
def ActivityTable.init : ActivityTable :=
  ⟨⟨none, []⟩, ⟨none, []⟩, ⟨none, []⟩⟩

/-- Association-list lookup, modelling Python dict indexing by path. -/
def alookup {β : Type} : List (String × β) → String → Option β
  | [], _ => none
  | (q, b) :: rest, p => if p = q then some b else alookup rest p

/-- Association-list update of an existing key, modelling `dict[k] = v`. -/
def aupdate {β : Type} (l : List (String × β)) (p : String) (b : β) :
    List (String × β) :=
  l.map (fun qb => if qb.1 = p then (p, b) else qb)

/-- `set.add`: Python set addition of a path. -/
def addFile (l : List String) (p : String) : List String :=
  if p ∈ l then l else l ++ [p]

/-- `set.discard`: Python set removal of a path. -/
def discardFile (l : List String) (p : String) : List String :=
  l.filter (fun q => q ≠ p)

/-- The mutable state of one `WorkspaceManager` instance:
`self.file_metadata`, `self.agent_activity`, and the day-partitioned event
log files under `logs/` (newest partition first, matching the order that
`sorted(..., reverse=True)` produces; within a partition the lines are in
append order, oldest first). -/
structure Workspace where
  file_metadata : List (String × FileMetadata)
  agent_activity : ActivityTable
  logs : List (List AuditEvent)
deriving DecidableEq

/-- `_log_file_event`: appends the event to the record's `history` (when the
path is tracked) and to today's (the newest) log partition. -/
def log_file_event (ws : Workspace) (path : String) (agent : AgentType)
    (action : String) (details : List (String × String)) (now : Nat) :
    Workspace :=
  let e : AuditEvent :=
    { timestamp := now, agent := agent, action := action, file := path
      details := details }
  let md :=
    match alookup ws.file_metadata path with
    | some m => aupdate ws.file_metadata path { m with history := m.history ++ [e] }
    | none => ws.file_metadata
  let logs :=
    match ws.logs with
    | [] => [[e]]
    | today :: older => (today ++ [e]) :: older
  { ws with file_metadata := md, logs := logs }

/-- Characters after the last separator, accumulator-style. -/
def lastComponent : List Char → List Char → List Char
  | [], acc => acc
  | c :: rest, acc =>
    if c = '/' then lastComponent rest [] else lastComponent rest (acc ++ [c])

/-- The final name component of a workspace-relative path (`Path.name`). -/
def fileName (p : String) : String :=
  String.mk (lastComponent p.data [])

/-- `lock_path = self.lock_dir / f"{file_path.name}.lock"`: the lock file is
derived from the final name component only. -/
def lockPath (p : String) : String :=
  ".locks/" ++ fileName p ++ ".lock"

/-- `acquire_file`.  `lockOk` tells whether `lock.acquire()` on
`lockPath path` would succeed within the timeout; it is consulted only on
the write branch, because the read branch of the source never acquires the
filesystem mutex. -/
def acquire_file (ws : Workspace) (path : String) (agent : AgentType)
    (write : Bool) (lockOk : Bool) (now : Nat) : Bool × Workspace :=
  let fm :=
    if (alookup ws.file_metadata path).isSome then ws.file_metadata
    else ws.file_metadata ++ [(path, FileMetadata.fresh path now)]
  let metadata := (alookup fm path).getD (FileMetadata.fresh path now)
  let ws0 := { ws with file_metadata := fm }
  if metadata.state = FileState.locked_write ∧ metadata.locked_by ≠ some agent then
    (false, ws0)
  else if write ∧ ¬ lockOk then
    -- `filelock.Timeout` raised by `lock.acquire()`
    (false, ws0)
  else
    let fm1 :=
      if write then
        aupdate fm path
          { metadata with state := FileState.locked_write, locked_by := some agent }
      else if metadata.state ≠ FileState.locked_write then
        aupdate fm path
          { metadata with state := FileState.locked_read, locked_by := some agent }
      else fm
    let act := ws0.agent_activity.get agent
    let act1 : AgentActivity :=
      { last_active := some now, current_files := addFile act.current_files path }
    let ws1 := { ws0 with file_metadata := fm1
                          agent_activity := ws0.agent_activity.set agent act1 }
    let ws2 := log_file_event ws1 path agent "acquired"
      [("write", if write then "true" else "false")] now
    (true, ws2)

/-- `release_file`. -/
def release_file (ws : Workspace) (path : String) (agent : AgentType)
    (now : Nat) : Workspace :=
  match alookup ws.file_metadata path with
  | none => ws
  | some metadata =>
    if metadata.locked_by = some agent then
      let fm1 := aupdate ws.file_metadata path
        { metadata with state := FileState.available, locked_by := none }
      let act := ws.agent_activity.get agent
      let act1 : AgentActivity :=
        { act with current_files := discardFile act.current_files path }
      let ws1 := { ws with file_metadata := fm1
                           agent_activity := ws.agent_activity.set agent act1 }
      log_file_event ws1 path agent "released" [] now
    else ws

/-- `read_file`.  `ioRead` is the outcome of opening and reading the file on
disk; an `Except.error` models the raised exception.  The source wraps the
I/O in `try ... finally release`, with no `except` clause, so an I/O
exception propagates to the caller (modelled as `Except.error` in the first
component) after `release_file` has run. -/
def read_file (ws : Workspace) (path : String) (agent : AgentType)
    (ioRead : Except Unit String) (now : Nat) :
    Except Unit (Option String) × Workspace :=
  match acquire_file ws path agent false true now with
  | (false, ws1) => (Except.ok none, ws1)
  | (true, ws1) =>
    match ioRead with
    | Except.ok content =>
      let ws2 := log_file_event ws1 path agent "read" [] now
      (Except.ok (some content), release_file ws2 path agent now)
    | Except.error e =>
      (Except.error e, release_file ws1 path agent now)

/-- `write_file`.  `ioOk` is the outcome of the backup plus write I/O inside
the `try` block; the source catches any exception there (`except Exception`)
and returns `False`, and releases the lock in `finally` on every exit
path. -/
def write_file (ws : Workspace) (path : String) (content : String)
    (agent : AgentType) (backup : Bool) (lockOk : Bool) (ioOk : Bool)
    (now : Nat) : Bool × Workspace :=
  match acquire_file ws path agent true lockOk now with
  | (false, ws1) => (false, ws1)
  | (true, ws1) =>
    if ioOk then
      let fm1 :=
        match alookup ws1.file_metadata path with
        | some m => aupdate ws1.file_metadata path
            { m with last_modified := now, state := FileState.modified }
        | none => ws1.file_metadata
      let ws2 := { ws1 with file_metadata := fm1 }
      let ws3 := log_file_event ws2 path agent "wrote"
        [("size", toString content.length)] now
      (true, release_file ws3 path agent now)
    else
      (false, release_file ws1 path agent now)

/-- `_handle_file_change`: the watcher's `modified` callback. -/
def handle_file_change (ws : Workspace) (path : String) (now : Nat) :
    Workspace :=
  match alookup ws.file_metadata path with
  | none => ws
  | some metadata =>
    let m1 := { metadata with last_modified := now }
    let m2 :=
      if m1.state = FileState.locked_write then
        { m1 with state := FileState.conflict }
      else m1
    { ws with file_metadata := aupdate ws.file_metadata path m2 }

/-- `_handle_file_created`: the watcher's `created` callback. -/
def handle_file_created (ws : Workspace) (path : String) (now : Nat) :
    Workspace :=
  if (alookup ws.file_metadata path).isSome then ws
  else
    { ws with file_metadata :=
        ws.file_metadata ++ [(path, FileMetadata.fresh path now)] }

/-- Inner loop of `_get_recent_events` over the lines of one log file.
Returns the accumulated events and whether the `len(events) >= limit` early
return fired. -/
def scanLines (lines : List AuditEvent) (agent : AgentType) (limit : Nat)
    (events : List AuditEvent) : List AuditEvent × Bool :=
  match lines with
  | [] => (events, false)
  | e :: rest =>
    if e.agent = agent then
      let events1 := events ++ [e]
      if limit ≤ events1.length then (events1, true)
      else scanLines rest agent limit events1
    else scanLines rest agent limit events

/-- Outer loop of `_get_recent_events` over the (already `[:3]`-truncated)
log files. -/
def scanFiles (files : List (List AuditEvent)) (agent : AgentType)
    (limit : Nat) (events : List AuditEvent) : List AuditEvent :=
  match files with
  | [] => events
  | f :: rest =>
    match scanLines f agent limit events with
    | (events1, true) => events1
    | (events1, false) => scanFiles rest agent limit events1

/-- `_get_recent_events`: scan the last 3 day partitions, newest partition
first, each partition read line by line in append (chronological) order. -/
def get_recent_events (logs : List (List AuditEvent)) (agent : AgentType)
    (limit : Nat) : List AuditEvent :=
  scanFiles (logs.take 3) agent limit []

/-- The `file_info` dict built inside `get_agent_view`. -/
structure FileInfo where
  path : String
  state : FileState
  last_modified : Nat
deriving DecidableEq

def FileInfo.ofMeta (p : String) (m : FileMetadata) : FileInfo :=
  { path := p, state := m.state, last_modified := m.last_modified }

/-- The classification loop of `get_agent_view`: first component is
`view['locked_files']`, second is `view['shared_files']`. -/
def viewFiles (entries : List (String × FileMetadata)) (agent : AgentType) :
    List FileInfo × List FileInfo :=
  match entries with
  | [] => ([], [])
  | (p, m) :: rest =>
    let vr := viewFiles rest agent
    if m.locked_by = some agent then (FileInfo.ofMeta p m :: vr.1, vr.2)
    else if m.state = FileState.available then
      (vr.1, FileInfo.ofMeta p m :: vr.2)
    else vr

/-- The parts of the `get_agent_view` result that the metadata store
determines. -/
structure AgentView where
  agent : AgentType
  locked_files : List FileInfo
  shared_files : List FileInfo
  recent_changes : List AuditEvent
deriving DecidableEq

/-- `get_agent_view`. -/
def get_agent_view (ws : Workspace) (agent : AgentType) : AgentView :=
  let ls := viewFiles ws.file_metadata agent
  { agent := agent
    locked_files := ls.1
    shared_files := ls.2
    recent_changes := get_recent_events ws.logs agent 10 }

/-- One entry of the `files` array of `.workspace_state.json`. -/
structure SnapshotEntry where
  path : String
  state : String
  locked_by : Option String
  last_modified : Nat
  checksum : Option String
  history : List AuditEvent
deriving DecidableEq

/-- Serialisation of one record to its `files` entry, keeping the last 10
history events (`history[-10:]`). -/
def snapshotEntries (md : List (String × FileMetadata)) : List SnapshotEntry :=
  md.map (fun pm =>
    { path := pm.1
      state := fileStateValue pm.2.state
      locked_by := pm.2.locked_by.map agentValue
      last_modified := pm.2.last_modified
      checksum := pm.2.checksum
      history := pm.2.history.drop (pm.2.history.length - 10) })

/-- `save_workspace_state`: serialise every tracked record. -/
def save_workspace_state (ws : Workspace) : List SnapshotEntry :=
  snapshotEntries ws.file_metadata

/-- `AgentType(file_data['locked_by']) if file_data.get('locked_by') else None`. -/
def parseLockedBy : Option String → Option (Option AgentType)
  | none => some none
  | some s => (agentOfValue s).map some

/-- The restore loop of `_initialize_workspace_state`: entries whose path no
longer exists on disk (`onDisk` false) are skipped; a parse failure raises,
which aborts the loop keeping the records restored so far. -/
def restore_files (entries : List SnapshotEntry) (onDisk : String → Bool) :
    List (String × FileMetadata) :=
  match entries with
  | [] => []
  | e :: rest =>
    if onDisk e.path then
      match fileStateOfValue e.state, parseLockedBy e.locked_by with
      | some st, some lb =>
        (e.path,
          { path := e.path, state := st, locked_by := lb
            last_modified := e.last_modified, checksum := e.checksum
            history := e.history }) :: restore_files rest onDisk
      | _, _ => []
    else restore_files rest onDisk

/-- The `(state, lockedBy)` view of a record. -/
def recView (m : FileMetadata) : FileState × Option AgentType :=
  (m.state, m.locked_by)

/-- A record write-locked by Claude. -/
def mWrite : FileMetadata :=
  { path := "notes.md", state := FileState.locked_write
    locked_by := some AgentType.claude, last_modified := 0, checksum := none
    history := [] }

def wsWriteLocked : Workspace :=
  ⟨[("notes.md", mWrite)], ActivityTable.init, []⟩

/-- A record read-locked by Claude. -/
def mRead : FileMetadata :=
  { path := "notes.md", state := FileState.locked_read
    locked_by := some AgentType.claude, last_modified := 0, checksum := none
    history := [] }

def wsReadLocked : Workspace :=
  ⟨[("notes.md", mRead)], ActivityTable.init, []⟩

/-- A record in conflict state, still held by Claude. -/
def mConf : FileMetadata :=
  { path := "notes.md", state := FileState.conflict
    locked_by := some AgentType.claude, last_modified := 0, checksum := none
    history := [] }

def wsConflict : Workspace :=
  ⟨[("notes.md", mConf)], ActivityTable.init, []⟩

/-- An available, unheld record. -/
def mAvail : FileMetadata :=
  { path := "notes.md", state := FileState.available
    locked_by := none, last_modified := 0, checksum := none
    history := [] }

def wsAvailable : Workspace :=
  ⟨[("notes.md", mAvail)], ActivityTable.init, []⟩

/-- A workspace tracking no files at all. -/
def wsUntracked : Workspace :=
  ⟨[], ActivityTable.init, []⟩

/-- The record that `_initialize_workspace_state` rebuilds for key `p` from
the snapshot entry that `save_workspace_state` wrote for record `m`. -/
def restoredOf (p : String) (m : FileMetadata) : FileMetadata :=
  { path := p, state := m.state, locked_by := m.locked_by
    last_modified := m.last_modified, checksum := m.checksum
    history := m.history.drop (m.history.length - 10) }

/-- Snapshot example: a record write-locked by Claude ... -/
def mSnapA : FileMetadata :=
  { path := "shared/a.txt", state := FileState.locked_write
    locked_by := some AgentType.claude, last_modified := 11, checksum := none
    history := [] }

/-- ... and an available one whose file will vanish from disk. -/
def mSnapB : FileMetadata :=
  { path := "shared/b.txt", state := FileState.available
    locked_by := none, last_modified := 12, checksum := some "abc"
    history := [] }

def wsSnap : Workspace :=
  ⟨[("shared/a.txt", mSnapA), ("shared/b.txt", mSnapB)], ActivityTable.init,
    []⟩

/-- View example: a record held by Claude, ... -/
def mV1 : FileMetadata :=
  { path := "tasks/a.md", state := FileState.locked_write
    locked_by := some AgentType.claude, last_modified := 1, checksum := none
    history := [] }

/-- ... an available record held by nobody, ... -/
def mV2 : FileMetadata :=
  { path := "tasks/b.md", state := FileState.available
    locked_by := none, last_modified := 2, checksum := none
    history := [] }

/-- ... and a conflicted record held by Gemini. -/
def mV3 : FileMetadata :=
  { path := "tasks/c.md", state := FileState.conflict
    locked_by := some AgentType.gemini, last_modified := 3, checksum := none
    history := [] }

def wsView : Workspace :=
  ⟨[("tasks/a.md", mV1), ("tasks/b.md", mV2), ("tasks/c.md", mV3)],
    ActivityTable.init, []⟩

/-- The i-th audit event recorded for Claude. -/
def evClaude (i : Nat) : AuditEvent :=
  { timestamp := i, agent := AgentType.claude, action := "acquired"
    file := "notes.md", details := [] }

/-- A single day partition holding ten Claude events in append order. -/
def logsTen : List (List AuditEvent) :=
  [[evClaude 1, evClaude 2, evClaude 3, evClaude 4, evClaude 5, evClaude 6,
    evClaude 7, evClaude 8, evClaude 9, evClaude 10]]

section Lemmas

theorem alookup_aupdate_self {β : Type} (l : List (String × β)) (p : String)
    (b : β) : alookup (aupdate l p b) p = (alookup l p).map (fun _ => b) := by
  induction l with
  | nil => rfl
  | cons qc rest ih =>
    obtain ⟨q, c⟩ := qc
    simp only [aupdate, List.map_cons] at ih ⊢
    by_cases hq : q = p
    · subst hq
      rw [if_pos rfl]
      simp [alookup]
    · rw [if_neg hq]
      have hp : ¬ (p = q) := fun e => hq e.symm
      simp only [alookup, if_neg hp]
      exact ih

theorem alookup_append_single {β : Type} (l : List (String × β)) (p : String)
    (b : β) (h : alookup l p = none) : alookup (l ++ [(p, b)]) p = some b := by
  induction l with
  | nil => simp [alookup]
  | cons qc rest ih =>
    obtain ⟨q, c⟩ := qc
    simp only [alookup] at h
    by_cases hp : p = q
    · rw [if_pos hp] at h
      exact absurd h (by simp)
    · rw [if_neg hp] at h
      simp only [List.cons_append, alookup, if_neg hp]
      exact ih h

theorem log_file_event_recView (ws : Workspace) (path : String)
    (agent : AgentType) (action : String) (details : List (String × String))
    (now : Nat) :
    (alookup (log_file_event ws path agent action details now).file_metadata
        path).map recView
      = (alookup ws.file_metadata path).map recView := by
  unfold log_file_event
  cases h : alookup ws.file_metadata path with
  | none => simp [h]
  | some m => simp [h, alookup_aupdate_self, recView]

end Lemmas

/-- C1: while a path is `LOCKED_WRITE` held by agent `holder`, an
`acquire_file` call on that path by any other agent — exclusive or not —
returns `false` and changes nothing, so the holder field (the single
per-path `locked_by`) still names `holder`: at most one agent ever holds
`LOCKED_WRITE` on a path. -/
theorem spec_c1 (ws : Workspace) (path : String) (agent holder : AgentType)
    (write lockOk : Bool) (now : Nat) (m : FileMetadata)
    (h : alookup ws.file_metadata path = some m)
    (hs : m.state = FileState.locked_write)
    (hb : m.locked_by = some holder)
    (hne : agent ≠ holder) :
    acquire_file ws path agent write lockOk now = (false, ws) := by
  obtain ⟨fmd, act, lgs⟩ := ws
  have hba : m.locked_by ≠ some agent := by
    rw [hb]
    intro e
    exact hne (Option.some.inj e).symm
  simp [acquire_file, h, hs, hba]

/-- C1 witness: Gemini's exclusive acquire on a path write-locked by Claude
fails and leaves the workspace untouched. -/
theorem spec_c1_witness :
    alookup wsWriteLocked.file_metadata "notes.md" = some mWrite
  ∧ mWrite.state = FileState.locked_write
  ∧ mWrite.locked_by = some AgentType.claude
  ∧ AgentType.gemini ≠ AgentType.claude
  ∧ acquire_file wsWriteLocked "notes.md" AgentType.gemini true true 3
      = (false, wsWriteLocked) :=
  ⟨rfl, rfl, rfl, by decide,
    spec_c1 wsWriteLocked "notes.md" AgentType.gemini AgentType.claude true
      true 3 mWrite rfl rfl rfl (by decide)⟩

/-- C2 counterexample: with `"notes.md"` in state `LOCKED_READ` held by
Claude (a reader outstanding, never released), Gemini's exclusive acquire
succeeds at once and moves the path to `LOCKED_WRITE` — the source's read
branch never takes the filesystem mutex and `acquire_file` only refuses
when the state is `LOCKED_WRITE`, so readers do not block writers. -/
theorem spec_c2_cex :
    (acquire_file wsReadLocked "notes.md" AgentType.gemini true true 5).1
      = true
  ∧ (alookup (acquire_file wsReadLocked "notes.md" AgentType.gemini true true
      5).2.file_metadata "notes.md").map recView
      = some (FileState.locked_write, some AgentType.gemini) :=
  ⟨rfl, rfl⟩

/-- C2 amended: while a path is `LOCKED_READ`, a further non-exclusive
acquire by any agent succeeds (taking over `locked_by`), and an exclusive
acquire by any agent also succeeds as soon as the filesystem mutex is free
— which it always is, since readers never acquire it — transitioning the
path to `LOCKED_WRITE` immediately, without waiting for readers to
release. -/
theorem spec_c2_amended (ws : Workspace) (path : String) (m : FileMetadata)
    (h : alookup ws.file_metadata path = some m)
    (hs : m.state = FileState.locked_read)
    (b c : AgentType) (lockOk : Bool) (now : Nat) :
    ((acquire_file ws path b false lockOk now).1 = true
      ∧ (alookup (acquire_file ws path b false lockOk now).2.file_metadata
          path).map recView = some (FileState.locked_read, some b))
  ∧ ((acquire_file ws path c true true now).1 = true
      ∧ (alookup (acquire_file ws path c true true now).2.file_metadata
          path).map recView = some (FileState.locked_write, some c)) := by
  refine ⟨⟨?_, ?_⟩, ?_, ?_⟩
  · simp [acquire_file, h, hs]
  · simp only [acquire_file, h, Option.isSome_some, if_true, Option.getD_some]
    simp only [hs]
    rw [if_neg (by simp), if_neg (by simp)]
    simp only [if_neg (by simp : ¬ (false = true)), if_pos rfl]
    rw [log_file_event_recView]
    simp [alookup_aupdate_self, h, recView]
  · simp [acquire_file, h, hs]
  · simp only [acquire_file, h, Option.isSome_some, if_true, Option.getD_some]
    simp only [hs]
    rw [if_neg (by simp), if_neg (by simp)]
    simp only [if_pos rfl]
    rw [log_file_event_recView]
    simp [alookup_aupdate_self, h, recView]

/-- C2 witness: with Claude holding `LOCKED_READ` on `"notes.md"`, Gemini's
shared acquire succeeds, and Human's exclusive acquire also succeeds,
flipping the path to `LOCKED_WRITE`. -/
theorem spec_c2_witness :
    alookup wsReadLocked.file_metadata "notes.md" = some mRead
  ∧ mRead.state = FileState.locked_read
  ∧ (((acquire_file wsReadLocked "notes.md" AgentType.gemini false false 2).1
        = true
      ∧ (alookup (acquire_file wsReadLocked "notes.md" AgentType.gemini false
          false 2).2.file_metadata "notes.md").map recView
          = some (FileState.locked_read, some AgentType.gemini))
    ∧ ((acquire_file wsReadLocked "notes.md" AgentType.human true true 2).1
        = true
      ∧ (alookup (acquire_file wsReadLocked "notes.md" AgentType.human true
          true 2).2.file_metadata "notes.md").map recView
          = some (FileState.locked_write, some AgentType.human))) :=
  ⟨rfl, rfl,
    spec_c2_amended wsReadLocked "notes.md" mRead rfl rfl AgentType.gemini
      AgentType.human false 2⟩

/-- C3 counterexample: `"notes.md"` is in `CONFLICT` with Claude still
recorded as holder; Claude's `release_file` sets the state to `AVAILABLE`
(and clears `locked_by`), so the conflict does not survive the holder's
release — `release_file` transitions to `AVAILABLE` unconditionally. -/
theorem spec_c3_cex :
    (alookup (release_file wsConflict "notes.md" AgentType.claude
      7).file_metadata "notes.md").map recView
      = some (FileState.available, none)
  ∧ FileState.available ≠ FileState.conflict :=
  ⟨rfl, by decide⟩

/-- C3 amended: when the recorded holder releases a path that is in
`CONFLICT`, the record transitions to `AVAILABLE` with `locked_by` cleared:
`CONFLICT` is not terminal, the holder's release erases it. -/
theorem spec_c3_amended (ws : Workspace) (path : String) (agent : AgentType)
    (m : FileMetadata) (h : alookup ws.file_metadata path = some m)
    (hc : m.state = FileState.conflict) (hb : m.locked_by = some agent)
    (now : Nat) :
    (alookup (release_file ws path agent now).file_metadata path).map recView
      = some (FileState.available, none) := by
  simp only [release_file, h]
  rw [if_pos hb]
  rw [log_file_event_recView]
  simp [alookup_aupdate_self, h, recView]

/-- C3 witness: Claude releases the conflicted `"notes.md"` and the record
becomes `AVAILABLE` with no holder. -/
theorem spec_c3_witness :
    alookup wsConflict.file_metadata "notes.md" = some mConf
  ∧ mConf.state = FileState.conflict
  ∧ mConf.locked_by = some AgentType.claude
  ∧ (alookup (release_file wsConflict "notes.md" AgentType.claude
        9).file_metadata "notes.md").map recView
      = some (FileState.available, none) :=
  ⟨rfl, rfl, rfl,
    spec_c3_amended wsConflict "notes.md" AgentType.claude mConf rfl rfl rfl 9⟩

/-- C4 counterexample: a watcher `modified` event for a path with no record
is dropped entirely — `_handle_file_change` returns with the workspace
unchanged and still no record for the path, instead of creating one and
applying the mutation. -/
theorem spec_c4_cex :
    handle_file_change wsUntracked "sandbox/new.txt" 3 = wsUntracked
  ∧ alookup (handle_file_change wsUntracked "sandbox/new.txt" 3).file_metadata
      "sandbox/new.txt" = none :=
  ⟨rfl, rfl⟩

/-- C4 amended: for an untracked path, the watcher's `modified` handler
drops the event (no record is created, nothing is mutated), while only the
`created` handler creates a fresh `AVAILABLE` record. -/
theorem spec_c4_amended (ws : Workspace) (path : String) (now : Nat)
    (h : alookup ws.file_metadata path = none) :
    handle_file_change ws path now = ws
  ∧ alookup (handle_file_created ws path now).file_metadata path
      = some (FileMetadata.fresh path now) := by
  constructor
  · unfold handle_file_change
    rw [h]
  · unfold handle_file_created
    rw [h]
    simpa using alookup_append_single ws.file_metadata path _ h

/-- C4 witness: on the empty workspace, a `modified` event for
`"tasks/t1.md"` is a no-op, and a `created` event makes a fresh `AVAILABLE`
record for it. -/
theorem spec_c4_witness :
    alookup wsUntracked.file_metadata "tasks/t1.md" = none
  ∧ (handle_file_change wsUntracked "tasks/t1.md" 4 = wsUntracked
    ∧ alookup (handle_file_created wsUntracked "tasks/t1.md" 4).file_metadata
        "tasks/t1.md" = some (FileMetadata.fresh "tasks/t1.md" 4)) :=
  ⟨rfl, spec_c4_amended wsUntracked "tasks/t1.md" 4 rfl⟩

/-- C5: when the filesystem mutex cannot be obtained within the timeout
(`lockOk = false` on the exclusive branch, which is the only branch that
acquires it), `acquire_file` returns `false` and the whole workspace state —
in particular the path's record with its state, holder, timestamps, checksum
and history — is exactly as before the call; the failure is the boolean
result of a total function, not an exception. -/
theorem spec_c5 (ws : Workspace) (path : String) (agent : AgentType)
    (now : Nat) (m : FileMetadata)
    (h : alookup ws.file_metadata path = some m) :
    acquire_file ws path agent true false now = (false, ws) := by
  obtain ⟨fmd, act, lgs⟩ := ws
  simp only [acquire_file] at h ⊢
  simp [h]

/-- C5 witness: Gemini's exclusive acquire on the tracked `"notes.md"` with
an unobtainable mutex fails and leaves the workspace identical. -/
theorem spec_c5_witness :
    alookup wsWriteLocked.file_metadata "notes.md" = some mWrite
  ∧ acquire_file wsWriteLocked "notes.md" AgentType.gemini true false 4
      = (false, wsWriteLocked) :=
  ⟨rfl,
    spec_c5 wsWriteLocked "notes.md" AgentType.gemini 4 mWrite rfl⟩

/-- C8: the claim is right about release but the code diverges on the read
path: `read_file` wraps its I/O in `try ... finally release` with no
`except` clause, so an I/O failure propagates to the caller as the raised
exception (`Except.error` here) — not as the `None` its own docstring
promises — while the lock is indeed released: after the failed call the
record is `AVAILABLE` with no holder. -/
theorem spec_c8_bug :
    (read_file wsAvailable "notes.md" AgentType.claude (Except.error ()) 1).1
      = Except.error ()
  ∧ (alookup (read_file wsAvailable "notes.md" AgentType.claude
      (Except.error ()) 1).2.file_metadata "notes.md").map recView
      = some (FileState.available, none) :=
  ⟨rfl, rfl⟩

/-- C9: the filesystem lock file is derived from the final name component of
the requested path only, so two distinct workspace paths with equal final
components contend on the same lock file. -/
theorem spec_c9 (p q : String) (hpq : p ≠ q) (h : fileName p = fileName q) :
    lockPath p = lockPath q := by
  unfold lockPath
  rw [h]

/-- C9 witness: `"claude_workspace/x.txt"` and `"gemini_workspace/x.txt"`
are distinct paths mapped to the same lock file. -/
theorem spec_c9_witness :
    ("claude_workspace/x.txt" : String) ≠ "gemini_workspace/x.txt"
  ∧ fileName "claude_workspace/x.txt" = fileName "gemini_workspace/x.txt"
  ∧ lockPath "claude_workspace/x.txt" = lockPath "gemini_workspace/x.txt" :=
  ⟨by decide, rfl,
    spec_c9 "claude_workspace/x.txt" "gemini_workspace/x.txt" (by decide) rfl⟩

section QueryLemmas

theorem scanLines_eq (agent : AgentType) (limit : Nat)
    (lines : List AuditEvent) :
    ∀ acc : List AuditEvent, acc.length < limit →
    scanLines lines agent limit acc =
      if limit ≤ (acc ++ lines.filter
          (fun e => decide (e.agent = agent))).length
      then ((acc ++ lines.filter
          (fun e => decide (e.agent = agent))).take limit, true)
      else (acc ++ lines.filter (fun e => decide (e.agent = agent)), false) := by
  induction lines with
  | nil =>
    intro acc hacc
    simp [scanLines, Nat.not_le.mpr hacc]
  | cons e rest ih =>
    intro acc hacc
    by_cases he : e.agent = agent
    · have hf : (e :: rest).filter (fun x => decide (x.agent = agent))
          = e :: rest.filter (fun x => decide (x.agent = agent)) := by
        simp [List.filter_cons, he]
      simp only [scanLines, if_pos he, hf]
      by_cases hlim : limit ≤ (acc ++ [e]).length
      · rw [if_pos hlim]
        have hlen : limit = acc.length + 1 := by
          simp only [List.length_append, List.length_cons, List.length_nil]
            at hlim
          omega
        have hc : limit ≤ (acc ++ e :: rest.filter
            (fun x => decide (x.agent = agent))).length := by
          simp only [List.length_append, List.length_cons]
          omega
        rw [if_pos hc, hlen, List.take_append]
        simp
      · rw [if_neg hlim]
        have hlt : (acc ++ [e]).length < limit := Nat.lt_of_not_le hlim
        rw [ih _ hlt]
        simp [List.append_assoc]
    · have hf : (e :: rest).filter (fun x => decide (x.agent = agent))
          = rest.filter (fun x => decide (x.agent = agent)) := by
        simp [List.filter_cons, he]
      simp only [scanLines, if_neg he, hf]
      exact ih acc hacc

theorem scanFiles_eq (agent : AgentType) (limit : Nat)
    (files : List (List AuditEvent)) :
    ∀ acc : List AuditEvent, acc.length < limit →
    scanFiles files agent limit acc
      = (acc ++ files.flatten.filter
          (fun e => decide (e.agent = agent))).take limit := by
  induction files with
  | nil =>
    intro acc hacc
    simp only [scanFiles, List.flatten_nil, List.filter_nil, List.append_nil]
    exact (List.take_of_length_le (Nat.le_of_lt hacc)).symm
  | cons f rest ih =>
    intro acc hacc
    have hs := scanLines_eq agent limit f acc hacc
    by_cases hlim : limit ≤ (acc ++ f.filter
        (fun e => decide (e.agent = agent))).length
    · rw [if_pos hlim] at hs
      simp only [scanFiles, hs]
      rw [List.flatten_cons, List.filter_append, ← List.append_assoc]
      exact (List.take_append_of_le_length hlim).symm
    · rw [if_neg hlim] at hs
      have hlt : (acc ++ f.filter
          (fun e => decide (e.agent = agent))).length < limit :=
        Nat.lt_of_not_le hlim
      simp only [scanFiles, hs]
      rw [ih _ hlt]
      rw [List.flatten_cons, List.filter_append, ← List.append_assoc]

end QueryLemmas

/-- C6 counterexample: after 10 Claude events in one day partition,
`_get_recent_events` with limit 5 returns the 5 oldest events in
chronological order — each partition is read line by line from the top, so
the result is not the 5 most recent newest-first. -/
theorem spec_c6_cex :
    get_recent_events logsTen AgentType.claude 5
      = [evClaude 1, evClaude 2, evClaude 3, evClaude 4, evClaude 5]
  ∧ get_recent_events logsTen AgentType.claude 5
      ≠ [evClaude 10, evClaude 9, evClaude 8, evClaude 7, evClaude 6] :=
  ⟨rfl, by decide⟩

/-- C6 amended: for a positive limit, the audit-log query scans at most the
3 most recent day partitions, newest partition first but each partition in
chronological (oldest-first) line order, and returns the first `limit`
events of that scan that belong to the agent — i.e. the `limit` oldest
matching events of the scanned window, oldest-first, not the most recent
newest-first. -/
theorem spec_c6_amended (logs : List (List AuditEvent)) (agent : AgentType)
    (limit : Nat) (h : 0 < limit) :
    get_recent_events logs agent limit
      = ((logs.take 3).flatten.filter
          (fun e => decide (e.agent = agent))).take limit := by
  unfold get_recent_events
  rw [scanFiles_eq agent limit (logs.take 3) [] (by simpa using h)]
  simp

/-- C6 witness: the ten-event partition with limit 5 instantiates the
amended characterisation. -/
theorem spec_c6_witness :
    0 < 5
  ∧ get_recent_events logsTen AgentType.claude 5
      = ((logsTen.take 3).flatten.filter
          (fun e => decide (e.agent = AgentType.claude))).take 5 :=
  ⟨by decide, spec_c6_amended logsTen AgentType.claude 5 (by decide)⟩

section SnapshotLemmas

theorem fileStateOfValue_value (s : FileState) :
    fileStateOfValue (fileStateValue s) = some s := by
  cases s <;> rfl

theorem agentOfValue_value (a : AgentType) :
    agentOfValue (agentValue a) = some a := by
  cases a <;> rfl

theorem parseLockedBy_map (lb : Option AgentType) :
    parseLockedBy (lb.map agentValue) = some lb := by
  cases lb with
  | none => rfl
  | some a => simp [parseLockedBy, agentOfValue_value]

theorem restore_snapshotEntries (md : List (String × FileMetadata))
    (onDisk : String → Bool) :
    restore_files (snapshotEntries md) onDisk
      = (md.filter (fun pm => onDisk pm.1)).map
          (fun pm => (pm.1, restoredOf pm.1 pm.2)) := by
  induction md with
  | nil => rfl
  | cons pm rest ih =>
    obtain ⟨p, m⟩ := pm
    by_cases hd : onDisk p = true
    · simp only [snapshotEntries, List.map_cons, restore_files, if_pos hd,
        fileStateOfValue_value, parseLockedBy_map]
      rw [List.filter_cons_of_pos (by simpa using hd)]
      simp only [List.map_cons]
      refine congrArg₂ List.cons rfl ?_
      simpa [snapshotEntries] using ih
    · simp only [snapshotEntries, List.map_cons, restore_files, if_neg hd]
      rw [List.filter_cons_of_neg (by simpa using hd)]
      simpa [snapshotEntries] using ih

theorem alookup_map_values {β γ : Type} (f : String → β → γ)
    (l : List (String × β)) (p : String) :
    alookup (l.map (fun pm => (pm.1, f pm.1 pm.2))) p
      = (alookup l p).map (f p) := by
  induction l with
  | nil => rfl
  | cons qc rest ih =>
    obtain ⟨q, c⟩ := qc
    simp only [List.map_cons]
    by_cases hp : p = q
    · subst hp
      simp [alookup]
    · simp only [alookup, if_neg hp]
      exact ih

theorem alookup_filter_of_mem {β : Type} (l : List (String × β))
    (Q : String → Bool) (p : String) (b : β)
    (hnd : (l.map Prod.fst).Nodup) (hmem : (p, b) ∈ l) (hQ : Q p = true) :
    alookup (l.filter (fun pm => Q pm.1)) p = some b := by
  induction l with
  | nil => cases hmem
  | cons qc rest ih =>
    obtain ⟨q, c⟩ := qc
    simp only [List.map_cons, List.nodup_cons] at hnd
    rcases List.mem_cons.mp hmem with heq | hmem'
    · injection heq with h1 h2
      subst h1
      subst h2
      rw [List.filter_cons_of_pos (by simpa using hQ)]
      simp [alookup]
    · have hpq : p ≠ q := by
        intro e
        subst e
        exact hnd.1 (List.mem_map.mpr ⟨(p, b), hmem', rfl⟩)
      by_cases hq : Q q = true
      · rw [List.filter_cons_of_pos (by simpa using hq)]
        simp only [alookup, if_neg hpq]
        exact ih hnd.2 hmem'
      · rw [List.filter_cons_of_neg (by simpa using hq)]
        exact ih hnd.2 hmem'

theorem alookup_filter_of_neg {β : Type} (l : List (String × β))
    (Q : String → Bool) (p : String) (hQ : Q p = false) :
    alookup (l.filter (fun pm => Q pm.1)) p = none := by
  induction l with
  | nil => rfl
  | cons qc rest ih =>
    obtain ⟨q, c⟩ := qc
    by_cases hq : Q q = true
    · have hpq : p ≠ q := by
        intro e
        subst e
        rw [hQ] at hq
        cases hq
      rw [List.filter_cons_of_pos (by simpa using hq)]
      simp only [alookup, if_neg hpq]
      exact ih
    · rw [List.filter_cons_of_neg (by simpa using hq)]
      exact ih

end SnapshotLemmas

/-- C7: round-trip of the metadata store through
`save_workspace_state` / `_initialize_workspace_state`: for every tracked
path that still exists on disk, the restored store holds a record with the
identical `(state, lockedBy)` pair, and every entry whose path no longer
exists on disk is silently dropped. -/
theorem spec_c7 (ws : Workspace) (onDisk : String → Bool) (p q : String)
    (m : FileMetadata)
    (hnd : (ws.file_metadata.map Prod.fst).Nodup)
    (hmem : (p, m) ∈ ws.file_metadata)
    (hp : onDisk p = true) (hq : onDisk q = false) :
    (alookup (restore_files (save_workspace_state ws) onDisk) p).map recView
      = some (m.state, m.locked_by)
  ∧ alookup (restore_files (save_workspace_state ws) onDisk) q = none := by
  unfold save_workspace_state
  rw [restore_snapshotEntries]
  constructor
  · rw [alookup_map_values restoredOf (ws.file_metadata.filter
      (fun pm => onDisk pm.1)) p]
    rw [alookup_filter_of_mem ws.file_metadata (fun s => onDisk s) p m hnd
      hmem hp]
    rfl
  · rw [alookup_map_values restoredOf (ws.file_metadata.filter
      (fun pm => onDisk pm.1)) q]
    rw [alookup_filter_of_neg ws.file_metadata (fun s => onDisk s) q hq]
    rfl

/-- C7 witness: snapshotting `wsSnap` and restoring with only
`"shared/a.txt"` still on disk reproduces its `(state, lockedBy)` pair
`(LOCKED_WRITE, claude)` and drops the stale `"shared/b.txt"` entry. -/
theorem spec_c7_witness :
    (wsSnap.file_metadata.map Prod.fst).Nodup
  ∧ ("shared/a.txt", mSnapA) ∈ wsSnap.file_metadata
  ∧ (fun s => decide (s = "shared/a.txt")) "shared/a.txt" = true
  ∧ (fun s => decide (s = "shared/a.txt")) "shared/b.txt" = false
  ∧ ((alookup (restore_files (save_workspace_state wsSnap)
        (fun s => decide (s = "shared/a.txt"))) "shared/a.txt").map recView
        = some (mSnapA.state, mSnapA.locked_by)
    ∧ alookup (restore_files (save_workspace_state wsSnap)
        (fun s => decide (s = "shared/a.txt"))) "shared/b.txt" = none) :=
  ⟨by decide, by decide, by decide, by decide,
    spec_c7 wsSnap (fun s => decide (s = "shared/a.txt")) "shared/a.txt"
      "shared/b.txt" mSnapA (by decide) (by decide) (by decide) (by decide)⟩

section ViewLemmas

theorem viewFiles_path_locked (entries : List (String × FileMetadata))
    (agent : AgentType) :
    ∀ i ∈ (viewFiles entries agent).1, i.path ∈ entries.map Prod.fst := by
  induction entries with
  | nil =>
    intro i hi
    simp [viewFiles] at hi
  | cons pm rest ih =>
    obtain ⟨p, m⟩ := pm
    intro i hi
    simp only [viewFiles] at hi
    simp only [List.map_cons, List.mem_cons]
    split_ifs at hi with h1 h2
    · rcases (by simpa using hi :
          i = FileInfo.ofMeta p m ∨ i ∈ (viewFiles rest agent).1) with rfl | hi'
      · exact Or.inl rfl
      · exact Or.inr (ih i hi')
    · exact Or.inr (ih i (by simpa using hi))
    · exact Or.inr (ih i hi)

theorem viewFiles_path_shared (entries : List (String × FileMetadata))
    (agent : AgentType) :
    ∀ i ∈ (viewFiles entries agent).2, i.path ∈ entries.map Prod.fst := by
  induction entries with
  | nil =>
    intro i hi
    simp [viewFiles] at hi
  | cons pm rest ih =>
    obtain ⟨p, m⟩ := pm
    intro i hi
    simp only [viewFiles] at hi
    simp only [List.map_cons, List.mem_cons]
    split_ifs at hi with h1 h2
    · exact Or.inr (ih i (by simpa using hi))
    · rcases (by simpa using hi :
          i = FileInfo.ofMeta p m ∨ i ∈ (viewFiles rest agent).2) with rfl | hi'
      · exact Or.inl rfl
      · exact Or.inr (ih i hi')
    · exact Or.inr (ih i hi)

theorem viewFiles_mem_iff (agent : AgentType) :
    ∀ (entries : List (String × FileMetadata)) (p : String)
      (m : FileMetadata),
    (entries.map Prod.fst).Nodup → (p, m) ∈ entries →
    ((∃ i ∈ (viewFiles entries agent).1, i.path = p)
        ↔ m.locked_by = some agent)
    ∧ ((∃ i ∈ (viewFiles entries agent).2, i.path = p)
        ↔ m.locked_by ≠ some agent ∧ m.state = FileState.available) := by
  intro entries
  induction entries with
  | nil =>
    intro p m _ hmem
    cases hmem
  | cons qm rest ih =>
    intro p m hnd hmem
    obtain ⟨q, mq⟩ := qm
    simp only [List.map_cons, List.nodup_cons] at hnd
    obtain ⟨hq, hndr⟩ := hnd
    rcases List.mem_cons.mp hmem with heq | hmem'
    · injection heq with h1 h2
      subst h1
      subst h2
      have hlp : ∀ i ∈ (viewFiles rest agent).1, i.path ≠ p :=
        fun i hi e => hq (e ▸ viewFiles_path_locked rest agent i hi)
      have hsp : ∀ i ∈ (viewFiles rest agent).2, i.path ≠ p :=
        fun i hi e => hq (e ▸ viewFiles_path_shared rest agent i hi)
      simp only [viewFiles]
      split_ifs with h1 h2
      · refine ⟨⟨fun _ => h1, fun _ => ⟨FileInfo.ofMeta p m, by simp, rfl⟩⟩,
          ⟨?_, fun c => absurd h1 c.1⟩⟩
        rintro ⟨i, hi, e⟩
        exact absurd e (hsp i (by simpa using hi))
      · refine ⟨⟨?_, fun c => absurd c h1⟩,
          ⟨fun _ => ⟨h1, h2⟩, fun _ => ⟨FileInfo.ofMeta p m, by simp, rfl⟩⟩⟩
        rintro ⟨i, hi, e⟩
        exact absurd e (hlp i (by simpa using hi))
      · refine ⟨⟨?_, fun c => absurd c h1⟩, ⟨?_, fun c => absurd c.2 h2⟩⟩
        · rintro ⟨i, hi, e⟩
          exact absurd e (hlp i hi)
        · rintro ⟨i, hi, e⟩
          exact absurd e (hsp i hi)
    · have hpq : p ≠ q := by
        intro e
        subst e
        exact hq (List.mem_map.mpr ⟨(p, m), hmem', rfl⟩)
      have base := ih p m hndr hmem'
      simp only [viewFiles]
      split_ifs with h1 h2
      · constructor
        · constructor
          · rintro ⟨i, hi, e⟩
            rcases (by simpa using hi :
                i = FileInfo.ofMeta q mq ∨ i ∈ (viewFiles rest agent).1) with
              rfl | hi'
            · exact absurd e.symm hpq
            · exact base.1.mp ⟨i, hi', e⟩
          · intro c
            obtain ⟨i, hi, e⟩ := base.1.mpr c
            exact ⟨i, by simp [hi], e⟩
        · simpa using base.2
      · constructor
        · simpa using base.1
        · constructor
          · rintro ⟨i, hi, e⟩
            rcases (by simpa using hi :
                i = FileInfo.ofMeta q mq ∨ i ∈ (viewFiles rest agent).2) with
              rfl | hi'
            · exact absurd e.symm hpq
            · exact base.2.mp ⟨i, hi', e⟩
          · intro c
            obtain ⟨i, hi, e⟩ := base.2.mpr c
            exact ⟨i, by simp [hi], e⟩
      · exact base

end ViewLemmas

/-- C10: in `get_agent_view` for agent `agent`, a tracked path appears in
`locked_files` exactly when its record's `locked_by` equals `agent`
(whatever its state), appears in `shared_files` exactly when `locked_by`
differs from `agent` and the state is `AVAILABLE`, and hence a path locked
by another agent, or in `MODIFIED`/`CONFLICT` without being held by
`agent`, appears in neither list. -/
theorem spec_c10 (ws : Workspace) (agent : AgentType) (p : String)
    (m : FileMetadata)
    (hnd : (ws.file_metadata.map Prod.fst).Nodup)
    (hmem : (p, m) ∈ ws.file_metadata) :
    ((∃ i ∈ (get_agent_view ws agent).locked_files, i.path = p)
        ↔ m.locked_by = some agent)
  ∧ ((∃ i ∈ (get_agent_view ws agent).shared_files, i.path = p)
        ↔ m.locked_by ≠ some agent ∧ m.state = FileState.available) := by
  have base := viewFiles_mem_iff agent ws.file_metadata p m hnd hmem
  simpa [get_agent_view] using base

/-- C10 witness: in Claude's view of `wsView`, the conflicted
`"tasks/c.md"` held by Gemini appears in neither `locked_files` nor
`shared_files`: both characterising conditions are false for it. -/
theorem spec_c10_witness :
    (wsView.file_metadata.map Prod.fst).Nodup
  ∧ ("tasks/c.md", mV3) ∈ wsView.file_metadata
  ∧ (((∃ i ∈ (get_agent_view wsView AgentType.claude).locked_files,
        i.path = "tasks/c.md") ↔ mV3.locked_by = some AgentType.claude)
    ∧ ((∃ i ∈ (get_agent_view wsView AgentType.claude).shared_files,
        i.path = "tasks/c.md")
        ↔ mV3.locked_by ≠ some AgentType.claude
          ∧ mV3.state = FileState.available)) :=
  ⟨by decide, by decide,
    spec_c10 wsView AgentType.claude "tasks/c.md" mV3 (by decide) (by decide)⟩

end MultiAgent
